import Mathlib

set_option maxRecDepth 100000

/-!
Shallow embedding of the go-infounit package (BitCount / ByteCount value
types, the shared SI/binary prefix formatter `prefix.formatUint` in
util.go, the `Scan`-based parser in bitcount.go / bytecount.go, and the
derived-quantity arithmetic `CalcTime` / `CalcBitRate` / `BitCount()`).

Conventions of the embedding:
* Go `uint64` values are `Nat`, with `% 2^64` written out exactly where the
  Go code can wrap (unchecked multiplication, shifts).
* Go `int64` / `time.Duration` values are `Int`.
* Go `float64` is modelled by `GoFloat`: NaN, signed infinities, or a
  finite rational value.  Every arithmetic operation rounds its exact
  rational result to the nearest IEEE-754 binary64 value (ties to even),
  which is exactly what the hardware does, so finite `GoFloat` values
  produced by the operations below are binary64-representable rationals.
  Signed zero is not distinguished (no modelled code path depends on it).
* Go strings are `List Char`; `String` inputs are converted with
  `String.toList`.
* Recursions use explicit fuel so that all definitions reduce inside the
  kernel (`decide`); the fuel bounds are far above what any 64-bit
  quantity can consume.
-/

namespace Infounit

/-- Decidable equality for `Except`, so that concrete parser and
arithmetic results can be checked by `decide`. -/
instance exceptDecEq {ε α : Type} [DecidableEq ε] [DecidableEq α] : DecidableEq (Except ε α) := fun a b =>
  match a, b with
  | .error e, .error f =>
    if h : e = f then isTrue (by rw [h]) else isFalse (fun c => h (Except.error.inj c))
  | .error _, .ok _ => isFalse (fun c => Except.noConfusion c)
  | .ok _, .error _ => isFalse (fun c => Except.noConfusion c)
  | .ok x, .ok y =>
    if h : x = y then isTrue (by rw [h]) else isFalse (fun c => h (Except.ok.inj c))

/-! ### Decimal digit strings (strconv.FormatUint / strconv.ParseUint) -/

def digitChar (d : Nat) : Char := Char.ofNat (48 + d)

/-- Decimal digits of `n`, most significant first, with `fuel` bounding the
number of digits.  `natDigits` below fixes fuel 64, enough for any value
produced in this development (a uint64 has at most 20 decimal digits). -/
def natDigitsF : Nat → Nat → List Char
  | 0, _ => []
  | fuel + 1, n => if n < 10 then [digitChar n] else natDigitsF fuel (n / 10) ++ [digitChar (n % 10)]

/-- strconv.FormatUint(v, 10): decimal representation of `v`. -/
def natDigits (n : Nat) : List Char := natDigitsF 64 n

def isDigitCh (c : Char) : Bool := decide ('0' ≤ c) && decide (c ≤ '9')

def isAlphaCh (c : Char) : Bool :=
  (decide ('a' ≤ c) && decide (c ≤ 'z')) || (decide ('A' ≤ c) && decide (c ≤ 'Z'))

def isSpaceCh (c : Char) : Bool := c = ' ' || c = '\t' || c = '\n' || c = '\r'

def toLowerCh (c : Char) : Char :=
  if decide ('A' ≤ c) && decide (c ≤ 'Z') then Char.ofNat (c.toNat + 32) else c

/-- strconv.ParseUint(base 10, bitSize 64) accumulator: consumes decimal
digits, failing on a non-digit or when the value would exceed 2^64-1. -/
def parseUIntAux : Nat → List Char → Option Nat
  | acc, [] => some acc
  | acc, c :: cs =>
    if isDigitCh c then
      let x := acc * 10 + (c.toNat - 48)
      if x < 2 ^ 64 then parseUIntAux x cs else none
    else none

/-- strconv.ParseUint(s, 10, 64): `none` on empty input, a non-digit
character, or unsigned 64-bit overflow. -/
def parseUIntDec (cs : List Char) : Option Nat :=
  match cs with
  | [] => none
  | _ => parseUIntAux 0 cs

/-! ### Exact rational helpers

Mathlib's `Rat.add` / `Rat.mul` / `Rat.div` are `@[irreducible]`, so the
arithmetic needed by the model is written directly with `mkRat` and
integer operations; each helper computes the exact rational result. -/

/-- Exact rational value of the integer `m`. -/
def qInt (m : ℤ) : ℚ := mkRat m 1

/-- Exact rational value of the natural `n`. -/
def qNat (n : Nat) : ℚ := mkRat n 1

/-- Exact rational product. -/
def qmul (a b : ℚ) : ℚ := mkRat (a.num * b.num) (a.den * b.den)

/-- Exact rational sum. -/
def qadd (a b : ℚ) : ℚ := mkRat (a.num * b.den + b.num * a.den) (a.den * b.den)

/-- Exact rational quotient (unused on a zero divisor). -/
def qdiv (a b : ℚ) : ℚ :=
  if b.num < 0 then mkRat (-(a.num * b.den)) (a.den * (-b.num).toNat)
  else mkRat (a.num * b.den) (a.den * b.num.toNat)

/-- Exact rational negation. -/
def qneg (a : ℚ) : ℚ := mkRat (-a.num) a.den

/-- The rational 2^e for a signed exponent `e`. -/
def q2pow (e : ℤ) : ℚ := if 0 ≤ e then mkRat ((2 : ℕ) ^ e.toNat : ℕ) 1 else mkRat 1 ((2 : ℕ) ^ (-e).toNat)

/-- The rational 10^p. -/
def qpow10 (p : Nat) : ℚ := mkRat ((10 : ℕ) ^ p : ℕ) 1

/-! ### The binary64 model -/

/-- A Go float64: NaN, an infinity (`true` = negative), or a finite value
given by its exact rational magnitude. -/
inductive GoFloat where
  | nan : GoFloat
  | inf : Bool → GoFloat
  | finite : ℚ → GoFloat
  deriving DecidableEq

/-- Round half to even, the rounding used both by binary64 arithmetic and
by strconv's fixed-precision decimal output.  Written with integer
arithmetic on the numerator and denominator: `fl` is the floor of `q` and
`r2` is twice the numerator of the fractional part over `q.den`. -/
def rheInt (q : ℚ) : ℤ :=
  let fl := Int.fdiv q.num q.den
  let r2 := 2 * (q.num - fl * q.den)
  if r2 < (q.den : ℤ) then fl
  else if (q.den : ℤ) < r2 then fl + 1
  else if fl % 2 = 0 then fl else fl + 1

/-- Round half away from zero (the semantics of Go `math.Round`):
`⌊q + 1/2⌋` for `q ≥ 0` and `-⌊-q + 1/2⌋` for `q < 0`, computed on the
numerator and denominator. -/
def roundAwayInt (q : ℚ) : ℤ :=
  if q < 0 then -(Int.fdiv (2 * (-q.num) + q.den) (2 * q.den))
  else Int.fdiv (2 * q.num + q.den) (2 * q.den)

/-- Fuel-bounded floor of log2 on naturals (the fuel keeps the definition
kernel-reducible; 4096 covers every number below 2^4096, far above any
value this development evaluates). -/
def natLog2F : Nat → Nat → Nat
  | 0, _ => 0
  | fuel + 1, n => if 2 ≤ n then natLog2F fuel (n / 2) + 1 else 0

/-- Floor of log2 of a positive rational. -/
def ratLog2 (q : ℚ) : ℤ :=
  let e0 : ℤ := (natLog2F 4096 q.num.natAbs : ℤ) - (natLog2F 4096 q.den : ℤ)
  if q < q2pow e0 then e0 - 1 else e0

/-- Round a positive rational to the nearest binary64 value (ties to even),
overflowing to +infinity at 2^1024 and flushing to zero below the smallest
subnormal, exactly as IEEE-754 round-to-nearest prescribes.  Division and
multiplication by 2^scale are exact. -/
def roundFloatPos (a : ℚ) : GoFloat :=
  let e := ratLog2 a
  let scale : ℤ := max (e - 52) (-1074)
  let m := rheInt (qmul a (q2pow (-scale)))
  let val : ℚ := qmul (qInt m) (q2pow scale)
  if q2pow 1024 ≤ val then .inf false else .finite val

/-- Round any rational to the nearest binary64 value. -/
def roundFloat (q : ℚ) : GoFloat :=
  if q = 0 then .finite 0
  else if q < 0 then
    match roundFloatPos (qneg q) with
    | .inf _ => .inf true
    | .finite v => .finite (qneg v)
    | .nan => .nan
  else roundFloatPos q

/-- Go conversion `float64(n)` from an unsigned integer. -/
def floatOfNat (n : Nat) : GoFloat := roundFloat (qNat n)

/-- Go conversion `float64(i)` from a signed integer. -/
def floatOfInt (i : Int) : GoFloat := roundFloat (qInt i)

/-- IEEE equality (`==` on float64): NaN equals nothing. -/
def feq : GoFloat → GoFloat → Bool
  | .nan, _ => false
  | _, .nan => false
  | .inf a, .inf b => a = b
  | .inf _, .finite _ => false
  | .finite _, .inf _ => false
  | .finite a, .finite b => a = b

/-- IEEE less-than (`<` on float64): false whenever NaN is involved. -/
def flt : GoFloat → GoFloat → Bool
  | .nan, _ => false
  | _, .nan => false
  | .inf a, .inf b => a && !b
  | .inf a, .finite _ => a
  | .finite _, .inf b => !b
  | .finite a, .finite b => a < b

/-- float64 multiplication: exact product, rounded to nearest binary64. -/
def fmul : GoFloat → GoFloat → GoFloat
  | .nan, _ => .nan
  | _, .nan => .nan
  | .inf a, .inf b => .inf (a ^^ b)
  | .inf a, .finite q => if q = 0 then .nan else .inf (a ^^ decide (q < 0))
  | .finite q, .inf b => if q = 0 then .nan else .inf (decide (q < 0) ^^ b)
  | .finite a, .finite b => roundFloat (qmul a b)

/-- float64 division: exact quotient, rounded to nearest binary64. -/
def fdiv : GoFloat → GoFloat → GoFloat
  | .nan, _ => .nan
  | _, .nan => .nan
  | .inf _, .inf _ => .nan
  | .inf a, .finite q => .inf (a ^^ decide (q < 0))
  | .finite _, .inf _ => .finite 0
  | .finite a, .finite b =>
    if b = 0 then (if a = 0 then .nan else .inf (decide (a < 0)))
    else roundFloat (qdiv a b)

/-- float64 addition: exact sum, rounded to nearest binary64. -/
def fadd : GoFloat → GoFloat → GoFloat
  | .nan, _ => .nan
  | _, .nan => .nan
  | .inf a, .inf b => if a = b then .inf a else .nan
  | .inf a, .finite _ => .inf a
  | .finite _, .inf b => .inf b
  | .finite a, .finite b => roundFloat (qadd a b)

/-- Go `math.Round` on a float64 (half away from zero; NaN and infinities
pass through). -/
def fround : GoFloat → GoFloat
  | .nan => .nan
  | .inf s => .inf s
  | .finite q => .finite (qInt (roundAwayInt q))

/-- Truncation toward zero of a rational, as Go float-to-integer
conversions discard the fraction. -/
def truncInt (q : ℚ) : ℤ := Int.tdiv q.num q.den

/-- Go conversion `uint64(f)`.  When the truncated value is outside
[0, 2^64) (or `f` is NaN/infinite) the Go specification leaves the result
implementation-specific; the model returns 2^63 in that case (the amd64
saturation pattern).  No theorem below depends on that choice. -/
def goU64ofFloat : GoFloat → Nat
  | .finite q =>
    let t := truncInt q
    if 0 ≤ t ∧ t < 2 ^ 64 then t.toNat else 2 ^ 63
  | _ => 2 ^ 63

/-- Go conversion `int64(f)` (used for `time.Duration(ns)`).  Out-of-range
and NaN results are implementation-specific in Go; the model returns
-2^63, which is what amd64 produces.  No theorem below depends on the
out-of-range choice. -/
def goI64ofFloat : GoFloat → Int
  | .finite q =>
    let t := truncInt q
    if -(2 ^ 63) ≤ t ∧ t < 2 ^ 63 then t else -(2 ^ 63)
  | _ => -(2 ^ 63)

/-! ### strconv.FormatFloat, format 'f' -/

/-- Left-pad a digit string with zeros to width `p`. -/
def padLeftZeros (ds : List Char) (p : Nat) : List Char :=
  List.replicate (p - ds.length) '0' ++ ds

/-- Fixed-point decimal output of a non-negative rational at `p` fractional
digits; the value is rounded to `p` decimals half-to-even, which is what
strconv's exact decimal conversion does. -/
def formatFixedMag (q : ℚ) (p : Nat) : List Char :=
  let scaled := (rheInt (qmul q (qpow10 p))).toNat
  if p = 0 then natDigits scaled
  else natDigits (scaled / 10 ^ p) ++ '.' :: padLeftZeros (natDigits (scaled % 10 ^ p)) p

/-- strconv.FormatFloat(v, 'f', p, 64) for `p ≥ 0`. -/
def formatFixed (q : ℚ) (p : Nat) : List Char :=
  if q < 0 then '-' :: formatFixedMag (qneg q) p else formatFixedMag q p

/-- Search for the smallest number of fractional digits whose decimal
rounding parses back (nearest-binary64) to exactly the formatted value:
that digit count is what strconv's shortest ('f', precision -1) output
uses.  The nearest `p`-digit decimal to `q` lies in the round-trip
interval whenever any `p`-digit decimal does, so the first success is the
true shortest width. -/
def shortestFixedAux (q : ℚ) : Nat → Nat → List Char
  | 0, p => formatFixed q p
  | fuel + 1, p =>
    let cand := qdiv (qInt (rheInt (qmul q (qpow10 p)))) (qpow10 p)
    if roundFloat cand = .finite q then formatFixed q p
    else shortestFixedAux q fuel (p + 1)

/-- strconv.FormatFloat(v, 'f', -1, 64): shortest decimal that re-parses
to the same binary64 value.  Every binary64 value has an exact decimal
expansion of fewer than 1200 fractional digits, so the fuel is never
exhausted on a representable input. -/
def shortestFixed (q : ℚ) : List Char := shortestFixedAux q 1200 0

/-- strconv.FormatFloat(v, 'f', prec, 64) on the float64 model; a negative
precision requests the shortest round-trip form.  NaN and infinities use
strconv's spellings. -/
def goFormatFloat : GoFloat → ℤ → List Char
  | .nan, _ => ['N', 'a', 'N']
  | .inf false, _ => ['+', 'I', 'n', 'f']
  | .inf true, _ => ['-', 'I', 'n', 'f']
  | .finite q, prec => if prec < 0 then shortestFixed q else formatFixed q prec.toNat

/-! ### The prefix tables and prefix.formatUint (util.go) -/

/-- The `prefix` struct of util.go: six thresholds with abbreviated and
full prefix names. -/
structure GoPfx where
  thr : List Nat
  preAbbr : List (List Char)
  preFull : List (List Char)

/-- Threshold lookup, `p.thresholds[i]` in the Go code. -/
def GoPfx.thrAt (p : GoPfx) (i : Nat) : Nat := p.thr.getD i 0

/-- The SI prefix table (`siPrefix` in util.go). -/
def siPfx : GoPfx where
  thr := [1000, 1000000, 1000000000, 1000000000000, 1000000000000000, 1000000000000000000]
  preAbbr := ["k".toList, "M".toList, "G".toList, "T".toList, "P".toList, "E".toList]
  preFull := ["kilo".toList, "mega".toList, "giga".toList, "tera".toList, "peta".toList, "exa".toList]

/-- The binary prefix table (`binPrefix` in util.go). -/
def binPfx : GoPfx where
  thr := [1024, 1048576, 1073741824, 1099511627776, 1125899906842624, 1152921504606846976]
  preAbbr := ["Ki".toList, "Mi".toList, "Gi".toList, "Ti".toList, "Pi".toList, "Ei".toList]
  preFull := ["kibi".toList, "mebi".toList, "gibi".toList, "tebi".toList, "pebi".toList, "exbi".toList]

/-- The tier index selected by the loop in `prefix.formatUint`: the first
`i` with `i = 5` or `v < thresholds[i+1]` (only reached when
`thresholds[0] ≤ v`). -/
def pickTier (p : GoPfx) (v : Nat) : Nat :=
  if v < p.thrAt 1 then 0
  else if v < p.thrAt 2 then 1
  else if v < p.thrAt 3 then 2
  else if v < p.thrAt 4 then 3
  else if v < p.thrAt 5 then 4
  else 5

/-- `prefix.formatUint` of util.go: format the uint64 `v` with the given
prefix table, precision (negative = unspecified), long-name flag, space
flag and unit words.  The plural "s" is appended in full-name mode unless
`v` is 1 or `v` equals the selected threshold exactly. -/
def pfxFormatUint (p : GoPfx) (v : Nat) (precision : ℤ) (full space : Bool) (uAbbr uFull : List Char) : List Char :=
  if v < p.thrAt 0 then
    natDigits v ++ (if space then [' '] else []) ++ (if full then uFull else uAbbr) ++
      (if v = 1 then [] else if full then ['s'] else [])
  else
    goFormatFloat (fdiv (floatOfNat v) (floatOfNat (p.thrAt (pickTier p v)))) precision ++
      (if space then [' '] else []) ++
      (if full then p.preFull else p.preAbbr).getD (pickTier p v) [] ++
      (if full then uFull else uAbbr) ++
      (if v = p.thrAt (pickTier p v) then [] else if v = 1 then [] else if full then ['s'] else [])

/-- The unit words of BitCount (`unitBitAbbr = unitBitFull = "bit"`). -/
def unitBitChars : List Char := "bit".toList

/-- The abbreviated unit word of ByteCount (`unitByteAbbr = "B"`). -/
def unitByteAbbrChars : List Char := "B".toList

/-- The full unit word of ByteCount (`unitByteFull = "byte"`). -/
def unitByteFullChars : List Char := "byte".toList

/-- The default/compact BitCount form `"% .1s"` (String() and the %v verb):
SI prefix, space, precision 1, abbreviated unit. -/
def formatBitCompact (v : Nat) : List Char :=
  pfxFormatUint siPfx v 1 false true unitBitChars unitBitChars

/-- The default/compact ByteCount form `"% .1s"`. -/
def formatByteCompact (v : Nat) : List Char :=
  pfxFormatUint siPfx v 1 false true unitByteAbbrChars unitByteFullChars

/-! ### The Scan parser (BitCount.Scan / ByteCount.Scan, verbs %s and %S)

The model covers the lenient two-token verbs `%s` (SI factors) and `%S`
(binary factors), which are what `ParseBitCount` / `ParseByteCount` and
`ParseBitCountBinary` / `ParseByteCountBinary` use via `fmt.Sscanf`. -/

/-- The numeric part of the first token: the digits of the integer part
and, when a decimal point is present, the (non-empty) fraction digits.
`numExpr` in the Go code is `intPart ++ "." ++ fracPart` (or just
`intPart`). -/
structure NumLit where
  intPart : List Char
  fracPart : Option (List Char)
  deriving DecidableEq

/-- The Go classification `isInt`: at least one integer digit and no
decimal point. -/
def NumLit.isInt (nl : NumLit) : Bool := nl.intPart ≠ [] && nl.fracPart = none

/-- The regular expression `^(([0-9]*)(\.[0-9]+)?)([a-z]*)$` (with
case-insensitive letters): splits a token into the numeric literal and a
trailing alphabetic unit, or fails. -/
def matchNumUnit (tok : List Char) : Option (NumLit × List Char) :=
  let ip := tok.takeWhile isDigitCh
  let r1 := tok.dropWhile isDigitCh
  match r1 with
  | '.' :: r2 =>
    let fp := r2.takeWhile isDigitCh
    let r3 := r2.dropWhile isDigitCh
    if fp = [] then none
    else if r3.dropWhile isAlphaCh = [] then some (⟨ip, some fp⟩, r3.takeWhile isAlphaCh)
    else none
  | _ =>
    if r1.dropWhile isAlphaCh = [] then some (⟨ip, none⟩, r1.takeWhile isAlphaCh)
    else none

/-- The error conditions `BitCount.Scan` / `ByteCount.Scan` distinguish on
the %s/%S path. -/
inductive ScanErr where
  | noInput
  | invalidExpr
  | noUnitSuffix
  | noSpaceAfterDigits
  | invalidUnitExpr
  | nonIntegerCount
  | invalidNumber
  | unknownUnit
  deriving DecidableEq

/-- Tokenization of the %s/%S path of `Scan`: read the first
space-delimited token and match it against the number+unit expression;
when it carries no unit, require exactly one space and a second,
all-alphabetic token as the unit suffix. -/
def extractTokens (cs : List Char) : Except ScanErr (NumLit × List Char) :=
  let rest := cs.dropWhile isSpaceCh
  let tok1 := rest.takeWhile (fun c => !isSpaceCh c)
  let after1 := rest.dropWhile (fun c => !isSpaceCh c)
  if tok1 = [] then .error .noInput
  else
    match matchNumUnit tok1 with
    | none => .error .invalidExpr
    | some (nl, u) =>
      if nl.intPart = [] ∧ nl.fracPart = none then .error .invalidExpr
      else if u ≠ [] then .ok (nl, u)
      else
        match after1 with
        | [] => .error .noUnitSuffix
        | c :: rest2 =>
          if c ≠ ' ' then .error .noSpaceAfterDigits
          else
            let tok2 := rest2.takeWhile (fun c => !isSpaceCh c)
            if tok2 = [] then .error .noUnitSuffix
            else if tok2.all isAlphaCh then .ok (nl, tok2)
            else .error .invalidUnitExpr

/-- Case-insensitive match of a unit token against a list of (lowercase)
spellings: the explicit expansion of one `(?i)^...$` alternation. -/
def matchAlt (u : List Char) (alts : List String) : Bool :=
  alts.any (fun s => u.map toLowerCh = s.toList)

/-- The spellings of the base bit unit, regex `bits?`. -/
def bitBaseAlts : List String := ["bit", "bits"]

/-- The bit unit table (`bitCountScanUnitRe`): spellings with the SI
factor (`bcs`) and the binary factor (`bcb`) of each tier. -/
def bitUnits : List (List String × Nat × Nat) :=
  [(bitBaseAlts, 1, 1),
   (["kbit", "kbits", "kilobit", "kilobits"], 1000, 1024),
   (["mbit", "mbits", "megabit", "megabits"], 1000000, 1048576),
   (["gbit", "gbits", "gigabit", "gigabits"], 1000000000, 1073741824),
   (["tbit", "tbits", "terabit", "terabits"], 1000000000000, 1099511627776),
   (["pbit", "pbits", "petabit", "petabits"], 1000000000000000, 1125899906842624),
   (["ebit", "ebits", "exabit", "exabits"], 1000000000000000000, 1152921504606846976),
   (["kibit", "kibits", "kibibit", "kibibits"], 1024, 1024),
   (["mibit", "mibits", "mebibit", "mebibits"], 1048576, 1048576),
   (["gibit", "gibits", "gibibit", "gibibits"], 1073741824, 1073741824),
   (["tibit", "tibits", "tebibit", "tebibits"], 1099511627776, 1099511627776),
   (["pibit", "pibits", "pebibit", "pebibits"], 1125899906842624, 1125899906842624),
   (["eibit", "eibits", "exbibit", "exbibits"], 1152921504606846976, 1152921504606846976)]

/-- The spellings of the base byte unit, regex `b(ytes?)?`. -/
def byteBaseAlts : List String := ["b", "byte", "bytes"]

/-- The byte unit table (`byteCountScanUnitRe`). -/
def byteUnits : List (List String × Nat × Nat) :=
  [(byteBaseAlts, 1, 1),
   (["kb", "kilobyte", "kilobytes"], 1000, 1024),
   (["mb", "megabyte", "megabytes"], 1000000, 1048576),
   (["gb", "gigabyte", "gigabytes"], 1000000000, 1073741824),
   (["tb", "terabyte", "terabytes"], 1000000000000, 1099511627776),
   (["pb", "petabyte", "petabytes"], 1000000000000000, 1125899906842624),
   (["eb", "exabyte", "exabytes"], 1000000000000000000, 1152921504606846976),
   (["kib", "kibibyte", "kibibytes"], 1024, 1024),
   (["mib", "mebibyte", "mebibytes"], 1048576, 1048576),
   (["gib", "gibibyte", "gibibytes"], 1073741824, 1073741824),
   (["tib", "tebibyte", "tebibytes"], 1099511627776, 1099511627776),
   (["pib", "pebibyte", "pebibytes"], 1125899906842624, 1125899906842624),
   (["eib", "exbibyte", "exbibytes"], 1152921504606846976, 1152921504606846976)]

/-- First unit-table entry whose spellings match the token (the `range`
loop over the table). -/
def lookupUnit (tbl : List (List String × Nat × Nat)) (u : List Char) : Option (Nat × Nat) :=
  match tbl with
  | [] => none
  | (alts, fs, fb) :: rest => if matchAlt u alts then some (fs, fb) else lookupUnit rest u

/-- Numeric value of a digit string with no overflow cutoff (the exact
mathematical value, used for the float literal path). -/
def digitsVal (ds : List Char) : Nat := ds.foldl (fun a c => a * 10 + (c.toNat - 48)) 0

/-- Exact rational value of the numeric literal (used by ParseFloat). -/
def litRat (nl : NumLit) : ℚ :=
  match nl.fracPart with
  | none => qNat (digitsVal nl.intPart)
  | some fp => mkRat (digitsVal nl.intPart * 10 ^ fp.length + digitsVal fp : ℕ) (10 ^ fp.length)

/-- strconv.ParseFloat on the matched literal: the nearest binary64 value;
an error (with value infinity) when the literal exceeds the float64
range. -/
def goParseFloat (nl : NumLit) : Except Unit GoFloat :=
  match roundFloat (litRat nl) with
  | .inf _ => .error ()
  | f => .ok f

/-- The value computation of `Scan` after tokenization, shared by the bit
and byte parsers via their unit table: base-unit inputs must be integers;
integer literals multiply in uint64 (wrapping mod 2^64); floating
literals take the rounded float64 product through the uint64 conversion.
`bin` selects the binary factors (`%S`/`%U`) over the SI factors
(`%s`/`%u`). -/
def scanWithTable (tbl : List (List String × Nat × Nat)) (baseAlts : List String)
    (bin : Bool) (nl : NumLit) (u : List Char) : Except ScanErr Nat :=
  if matchAlt u baseAlts then
    if !nl.isInt then .error .nonIntegerCount
    else
      match parseUIntDec nl.intPart with
      | none => .error .invalidNumber
      | some n => .ok n
  else if nl.isInt then
    match parseUIntDec nl.intPart with
    | none => .error .invalidNumber
    | some n =>
      match lookupUnit tbl u with
      | none => .error .unknownUnit
      | some (fs, fb) => .ok ((n * (if bin then fb else fs)) % 2 ^ 64)
  else
    match goParseFloat nl with
    | .error _ => .error .invalidNumber
    | .ok f =>
      match lookupUnit tbl u with
      | none => .error .unknownUnit
      | some (fs, fb) => .ok (goU64ofFloat (fround (fmul f (floatOfNat (if bin then fb else fs)))))

/-- `BitCount.Scan` with verb %s (`bin = false`) or %S (`bin = true`), as
invoked by ParseBitCount / ParseBitCountBinary through `fmt.Sscanf`. -/
def scanBitCount (bin : Bool) (cs : List Char) : Except ScanErr Nat :=
  (extractTokens cs).bind fun p => scanWithTable bitUnits bitBaseAlts bin p.1 p.2

/-- `ByteCount.Scan` with verb %s or %S, as invoked by ParseByteCount /
ParseByteCountBinary through `fmt.Sscanf`. -/
def scanByteCount (bin : Bool) (cs : List Char) : Except ScanErr Nat :=
  (extractTokens cs).bind fun p => scanWithTable byteUnits byteBaseAlts bin p.1 p.2

/-! ### Value-type arithmetic (error.go, bitcount.go, bytecount.go) -/

/-- The two sentinel errors of error.go. -/
inductive GoErr where
  | outOfRange
  | divZeroRate
  deriving DecidableEq

/-- `float64(math.MinInt64)`: -2^63, exactly representable. -/
def minInt64F : GoFloat := .finite (qInt (-(2 ^ 63)))

/-- `float64(math.MaxInt64)`: the conversion of 2^63-1 rounds UP to 2^63
(2^63-1 is not binary64-representable). -/
def maxInt64F : GoFloat := roundFloat (qInt (2 ^ 63 - 1))

/-- `ByteCount.BitCount()`: error when the top 3 bits are set, else the
value shifted left by 3 (a uint64 shift, hence the mod). -/
def byteBitCount (bc : Nat) : Except GoErr Nat :=
  if bc &&& (7 <<< 61) ≠ 0 then .error .outOfRange
  else .ok ((bc <<< 3) % 2 ^ 64)

/-- `BitCount.ByteCount()`: whole bytes and remainder bits. -/
def bitByteCount (bc : Nat) : Nat × Nat := (bc >>> 3, bc &&& 7)

/-- The float64 nanosecond count `float64(bc) * float64(time.Second) /
float64(rate)` computed by `BitCount.CalcTime`. -/
def bitTimeNS (bc : Nat) (rate : GoFloat) : GoFloat :=
  fdiv (fmul (floatOfNat bc) (.finite (qNat 1000000000))) rate

/-- `BitCount.CalcTime`: ErrDivZeroBitRate on a zero rate, ErrOutOfRange
when the float nanosecond value compares outside
[float64(MinInt64), float64(MaxInt64)], else `time.Duration(ns)`. -/
def bitCalcTime (bc : Nat) (rate : GoFloat) : Except GoErr Int :=
  if feq rate (.finite 0) then .error .divZeroRate
  else if flt (bitTimeNS bc rate) minInt64F || flt maxInt64F (bitTimeNS bc rate) then
    .error .outOfRange
  else .ok (goI64ofFloat (bitTimeNS bc rate))

/-- The float64 nanosecond count `float64(bc) * 8 * float64(time.Second) /
float64(rate)` computed by `ByteCount.CalcTime`. -/
def byteTimeNS (bc : Nat) (rate : GoFloat) : GoFloat :=
  fdiv (fmul (fmul (floatOfNat bc) (.finite (qNat 8))) (.finite (qNat 1000000000))) rate

/-- `ByteCount.CalcTime`. -/
def byteCalcTime (bc : Nat) (rate : GoFloat) : Except GoErr Int :=
  if feq rate (.finite 0) then .error .divZeroRate
  else if flt (byteTimeNS bc rate) minInt64F || flt maxInt64F (byteTimeNS bc rate) then
    .error .outOfRange
  else .ok (goI64ofFloat (byteTimeNS bc rate))

/-- Go integer division (truncation toward zero), `d / time.Second`. -/
def goIntQuo (a b : Int) : Int := Int.tdiv a b

/-- Go integer remainder, `d % time.Second` (sign follows the dividend). -/
def goIntRem (a b : Int) : Int := a - b * Int.tdiv a b

/-- `time.Duration.Seconds()`: `float64(d/1e9) + float64(d%1e9)/1e9`. -/
def durationSeconds (d : Int) : GoFloat :=
  fadd (floatOfInt (goIntQuo d 1000000000))
    (fdiv (floatOfInt (goIntRem d 1000000000)) (.finite (qNat 1000000000)))

/-- `BitCount.CalcBitRate`: total; 0 for zero count over zero duration,
+Inf for a positive count over zero duration, else
`float64(bc) / d.Seconds()`. -/
def bitCalcBitRate (bc : Nat) (d : Int) : GoFloat :=
  if d = 0 then (if bc = 0 then .finite 0 else .inf false)
  else fdiv (floatOfNat bc) (durationSeconds d)

/-- `ByteCount.CalcBitRate`: as above with `float64(bc) * 8`. -/
def byteCalcBitRate (bc : Nat) (d : Int) : GoFloat :=
  if d = 0 then (if bc = 0 then .finite 0 else .inf false)
  else fdiv (fmul (floatOfNat bc) (.finite (qNat 8))) (durationSeconds d)

/-! ### Helper lemmas -/

/-- Dividing or multiplying NaN gives NaN (used for the NaN-rate path). -/
lemma fdiv_nan (x : GoFloat) : fdiv x .nan = .nan := by cases x <;> rfl

lemma feq_nan_left (y : GoFloat) : feq .nan y = false := by cases y <;> rfl

lemma flt_nan_left (y : GoFloat) : flt .nan y = false := by cases y <;> rfl

lemma flt_nan_right (x : GoFloat) : flt x .nan = false := by cases x <;> rfl

/-- Rounding a finite float64 with math.Round. -/
lemma fround_finite (x : ℚ) : fround (.finite x) = .finite (qInt (roundAwayInt x)) := rfl

/-- The uint64 conversion of a finite float64, unfolded. -/
lemma goU64ofFloat_finite (x : ℚ) :
    goU64ofFloat (.finite x) =
      if 0 ≤ truncInt x ∧ truncInt x < 2 ^ 64 then (truncInt x).toNat else 2 ^ 63 := rfl

/-- The bits of the mask `7 <<< 61`: exactly bits 61, 62 and 63. -/
lemma testBit_mask761 (i : Nat) :
    Nat.testBit (7 <<< 61) i = (decide (61 ≤ i) && decide (i < 64)) := by
  rw [Nat.testBit_shiftLeft]
  by_cases h : 61 ≤ i
  · have hge : decide (i ≥ 61) = true := by simpa using h
    rw [hge, Bool.true_and]
    by_cases h64 : i < 64
    · have h2 : i - 61 = 0 ∨ i - 61 = 1 ∨ i - 61 = 2 := by omega
      have hd : decide (i < 64) = true := by simpa using h64
      rcases h2 with h2 | h2 | h2 <;> rw [h2, hd] <;> decide
    · have hbit : Nat.testBit 7 (i - 61) = false :=
        Nat.testBit_lt_two_pow (lt_of_lt_of_le (by norm_num)
          (Nat.pow_le_pow_right (by norm_num) (show 3 ≤ i - 61 by omega)))
      simp [hbit, h64]
  · have hge : decide (i ≥ 61) = false := by simpa using h
    rw [hge, Bool.false_and]
    simp [h]

/-- For a uint64 value, masking with `7 <<< 61` is zero exactly when the
value fits in 61 bits. -/
lemma land_mask761_eq_zero_iff (v : Nat) (hv : v < 2 ^ 64) :
    v &&& (7 <<< 61) = 0 ↔ v < 2 ^ 61 := by
  constructor
  · intro h
    have hb : ∀ i, 61 ≤ i → v.testBit i = false := by
      intro i hi
      rcases Nat.lt_or_ge i 64 with h64 | h64
      · have hz := congrArg (fun n => n.testBit i) h
        simp only [Nat.testBit_land, testBit_mask761, Nat.zero_testBit] at hz
        simpa [hi, h64] using hz
      · exact Nat.testBit_lt_two_pow
          (lt_of_lt_of_le hv (Nat.pow_le_pow_right (by norm_num) h64))
    have hmod : v = v % 2 ^ 61 := by
      apply Nat.eq_of_testBit_eq
      intro i
      rw [Nat.testBit_mod_two_pow]
      by_cases hi : i < 61
      · simp [hi]
      · simp [hi, hb i (Nat.le_of_not_lt hi)]
    rw [hmod]
    exact Nat.mod_lt _ (by norm_num)
  · intro h
    apply Nat.eq_of_testBit_eq
    intro i
    rw [Nat.testBit_land, testBit_mask761, Nat.zero_testBit]
    by_cases hi : 61 ≤ i
    · simp [Nat.testBit_lt_two_pow
        (lt_of_lt_of_le h (Nat.pow_le_pow_right (by norm_num) hi))]
    · simp [hi]

/-- `prefix.formatUint` with the full-name and space flags, with the
boolean branches reduced. -/
lemma pfxFormatUint_full_space (p : GoPfx) (v : Nat) (prec : ℤ) (uA uF : List Char) :
    pfxFormatUint p v prec true true uA uF =
      if v < p.thrAt 0 then
        natDigits v ++ [' '] ++ uF ++ (if v = 1 then [] else ['s'])
      else
        goFormatFloat (fdiv (floatOfNat v) (floatOfNat (p.thrAt (pickTier p v)))) prec ++
          [' '] ++ p.preFull.getD (pickTier p v) [] ++ uF ++
          (if v = p.thrAt (pickTier p v) then [] else if v = 1 then [] else ['s']) := rfl

/-- The last element of a list extended by a nonempty suffix with a known
last element. -/
lemma getLast?_append_of_getLast? (xs u : List Char) (c : Char) (h : u.getLast? = some c) :
    (xs ++ u).getLast? = some c := by
  rw [List.getLast?_append, h]
  rfl

/-- The pluralization behaviour of `prefix.formatUint` in full-name mode:
the output ends in 's' exactly when the underlying value is neither 1 nor
exactly the selected threshold.  `c` is the (non-'s') final letter of the
full unit word. -/
lemma plural_iff_aux (p : GoPfx) (v : Nat) (prec : ℤ) (uA uF : List Char) (c : Char)
    (hthr : 2 ≤ p.thrAt 0) (hc : uF.getLast? = some c) (hcs : c ≠ 's') :
    ((pfxFormatUint p v prec true true uA uF).getLast? = some 's' ↔
      ¬(v = 1 ∨ (p.thrAt 0 ≤ v ∧ v = p.thrAt (pickTier p v)))) := by
  rw [pfxFormatUint_full_space]
  by_cases hv0 : v < p.thrAt 0
  · rw [if_pos hv0]
    have hnotle : ¬ p.thrAt 0 ≤ v := Nat.not_le.mpr hv0
    by_cases hv1 : v = 1
    · rw [if_pos hv1, List.append_nil, getLast?_append_of_getLast? _ _ _ hc]
      exact iff_of_false (fun h => hcs (Option.some.inj h)) (fun h => h (Or.inl hv1))
    · rw [if_neg hv1, List.getLast?_concat]
      exact iff_of_true rfl (fun h => by
        rcases h with h | ⟨h2, -⟩
        exacts [hv1 h, hnotle h2])
  · rw [if_neg hv0]
    have hle : p.thrAt 0 ≤ v := Nat.le_of_not_lt hv0
    have hv1 : v ≠ 1 := by omega
    by_cases hsel : v = p.thrAt (pickTier p v)
    · rw [if_pos hsel, List.append_nil, getLast?_append_of_getLast? _ _ _ hc]
      exact iff_of_false (fun h => hcs (Option.some.inj h)) (fun h => h (Or.inr ⟨hle, hsel⟩))
    · rw [if_neg hsel, if_neg hv1, List.getLast?_concat]
      exact iff_of_true rfl (fun h => by
        rcases h with h | ⟨-, h2⟩
        exacts [hv1 h, hsel h2])

/-! ### Fidelity checks against the repository's own test vectors

Each example replays a row of TestBitCount_Format_1/2, TestBitCount_Scan_1,
TestByteCount_Scan_1 or TestBitCount_CalcTime from the Go test files. -/

example : pfxFormatUint siPfx 987654321 1 false true unitBitChars unitBitChars =
    "987.7 Mbit".toList := by decide

example : pfxFormatUint siPfx 987654321 (-1) false false unitBitChars unitBitChars =
    "987.654321Mbit".toList := by decide

example : pfxFormatUint binPfx 987654321 (-1) false true unitBitChars unitBitChars =
    "941.900559425354 Mibit".toList := by decide

example : pfxFormatUint binPfx 987654321 4 false true unitBitChars unitBitChars =
    "941.9006 Mibit".toList := by decide

example : pfxFormatUint siPfx 1000 1 false true unitBitChars unitBitChars =
    "1.0 kbit".toList := by decide

example : pfxFormatUint siPfx 1000 1 true true unitBitChars unitBitChars =
    "1.0 kilobit".toList := by decide

example : pfxFormatUint binPfx 1000 1 true true unitBitChars unitBitChars =
    "1000 bits".toList := by decide

example : pfxFormatUint binPfx (2 ^ 64 - 1) 1 false true unitBitChars unitBitChars =
    "16.0 Eibit".toList := by decide

example : pfxFormatUint siPfx (2 ^ 64 - 1) 1 true true unitBitChars unitBitChars =
    "18.4 exabits".toList := by decide

example : pfxFormatUint siPfx 2500000000 2 true true unitByteAbbrChars unitByteFullChars =
    "2.50 gigabytes".toList := by decide

example : scanBitCount false "18446744073709551615 bit".toList = .ok 18446744073709551615 := by
  decide

example : scanBitCount false "220.5kbit".toList = .ok 220500 := by decide

example : scanBitCount false ".75 kbit".toList = .ok 750 := by decide

example : scanBitCount false "00.777 kilobits".toList = .ok 777 := by decide

example : scanBitCount true "210kbit".toList = .ok 215040 := by decide

example : scanBitCount false "18.2 Ebit".toList = .ok 18200000000000000000 := by decide

example : scanBitCount true "15.5 Ebit".toList = .ok 17870283321406128128 := by decide

example : scanBitCount false "999 666".toList = .error .invalidUnitExpr := by decide

example : scanBitCount false "1.21jigowatts".toList = .error .unknownUnit := by decide

example : scanBitCount false "18446744073709551616 bit".toList = .error .invalidNumber := by
  decide

example : scanByteCount false "210KB".toList = .ok 210000 ∧
    scanByteCount false "210 kilobytes".toList = .ok 210000 := ⟨by decide, by decide⟩

example : scanByteCount true "100 kB".toList = .ok 102400 := by decide

example : bitCalcTime 1000 (.finite (qNat 1000)) = .ok 1000000000 := by decide

example : bitCalcTime 1000000000000 (.finite (qNat 1000)) = .ok 1000000000000000000 := by decide

example : bitCalcTime 1 (.finite 0) = .error .divZeroRate := by decide

example : bitCalcTime 1000000000000000000 (.finite 1) = .error .outOfRange := by decide

/-! ### The claims -/

/-- C1, counterexample: the compact round-trip property fails.  The
BitCount value 1001 formats (in the default/compact `"% .1s"` form) as
"1.0 kbit", which the lenient SI parser reads back as 1000, not 1001. -/
theorem c1_compact_roundtrip_counterexample :
    formatBitCompact 1001 = "1.0 kbit".toList ∧
    scanBitCount false (formatBitCompact 1001) = .ok 1000 ∧ (1000 : Nat) ≠ 1001 :=
  ⟨by decide, by decide, by decide⟩

set_option maxHeartbeats 4000000 in
/-- C1, amended: the compact form `parse (format v) = v` round-trip holds
for every value below the first SI threshold (v < 1000), where the
compact form is the exact decimal count followed by the base unit; for
values at or above the first threshold the compact form keeps only one
fractional digit, so re-parsing can yield a different value. -/
theorem c1_compact_roundtrip_below_threshold :
    ∀ v : Nat, v < 1000 →
      scanBitCount false (formatBitCompact v) = .ok v ∧
      scanByteCount false (formatByteCompact v) = .ok v := by decide

/-- Witness for `c1_compact_roundtrip_below_threshold` at v = 777. -/
theorem c1_compact_roundtrip_below_threshold_witness :
    scanBitCount false (formatBitCompact 777) = .ok 777 ∧
    scanByteCount false (formatByteCompact 777) = .ok 777 :=
  c1_compact_roundtrip_below_threshold 777 (by decide)

/-- C2, counterexample: the input "100 Ebit" has mathematical value
100·10^18 ≥ 2^64, yet the parser succeeds, storing the uint64-wrapped
product (100·10^18 mod 2^64) instead of returning an error. -/
theorem c2_parser_overflow_counterexample :
    scanBitCount false "100 Ebit".toList = .ok ((100 * 1000000000000000000) % 2 ^ 64) ∧
    2 ^ 64 ≤ 100 * 1000000000000000000 :=
  ⟨by decide, by decide⟩

/-- C2, amended: for integer literals with a non-base unit the stored
result is the product literal × factor reduced mod 2^64 with no overflow
check, for both parsers and in both SI (`bin = false`) and binary
(`bin = true`) factor modes; the stored value equals the mathematical
value exactly when that product is below 2^64.  (Literals whose own value
exceeds 2^64-1 are rejected by strconv.ParseUint, and base-unit integer
inputs are stored verbatim, so the integer multiplication is the only
unchecked step.) -/
theorem c2_integer_parse_wraps_mod_2_64 :
    (∀ (bin : Bool) (nl : NumLit) (u : List Char) (fs fb n : Nat),
        nl.isInt = true →
        parseUIntDec nl.intPart = some n →
        matchAlt u bitBaseAlts = false →
        lookupUnit bitUnits u = some (fs, fb) →
        scanWithTable bitUnits bitBaseAlts bin nl u =
          .ok ((n * (if bin then fb else fs)) % 2 ^ 64)) ∧
    (∀ (bin : Bool) (nl : NumLit) (u : List Char) (fs fb n : Nat),
        nl.isInt = true →
        parseUIntDec nl.intPart = some n →
        matchAlt u byteBaseAlts = false →
        lookupUnit byteUnits u = some (fs, fb) →
        scanWithTable byteUnits byteBaseAlts bin nl u =
          .ok ((n * (if bin then fb else fs)) % 2 ^ 64)) := by
  constructor <;>
  · intro bin nl u fs fb n hint hpu hbase hlook
    unfold scanWithTable
    rw [hbase, hint, hpu, hlook]
    rfl

/-- Witness for `c2_integer_parse_wraps_mod_2_64`: "2kbit" parses to
2 × 1000 mod 2^64 = 2000. -/
theorem c2_integer_parse_wraps_mod_2_64_witness :
    scanWithTable bitUnits bitBaseAlts false ⟨['2'], none⟩ "kbit".toList =
      .ok ((2 * 1000) % 2 ^ 64) :=
  c2_integer_parse_wraps_mod_2_64.1 false ⟨['2'], none⟩ "kbit".toList 1000 1024 2
    (by decide) (by decide) (by decide) (by decide)

/-- C3, counterexample: formatting BitCount 123456789 binary-prefixed
with default (unspecified) precision does not produce "117.737569 Mibit";
the default precision is the shortest round-trip form. -/
theorem c3_default_precision_counterexample :
    pfxFormatUint binPfx 123456789 (-1) false true unitBitChars unitBitChars ≠
      "117.737569 Mibit".toList := by decide

/-- C3, amended: BitCount 123456789 SI-prefixed at precision 1 (with the
space flag) gives "123.5 Mbit"; binary-prefixed with default precision it
gives the shortest round-trip form "117.73756885528564 Mibit"; the figure
"117.737569 Mibit" is what binary-prefixed formatting at precision 6
produces (it is the 6-fractional-digit rendering of the mebibit
conversion). -/
theorem c3_concrete_format_scenario :
    pfxFormatUint siPfx 123456789 1 false true unitBitChars unitBitChars =
      "123.5 Mbit".toList ∧
    pfxFormatUint binPfx 123456789 (-1) false true unitBitChars unitBitChars =
      "117.73756885528564 Mibit".toList ∧
    pfxFormatUint binPfx 123456789 6 false true unitBitChars unitBitChars =
      "117.737569 Mibit".toList :=
  ⟨by decide, by decide, by decide⟩

/-- C4, counterexample: with full unit names, SI prefixes and precision 0,
the BitCount value 1001 is displayed as "1 kilobits": the displayed
integer quantity is exactly 1 yet the unit word is pluralized, because the
code tests the underlying value (1001 ≠ 1000) rather than the displayed
quantity. -/
theorem c4_displayed_one_but_plural_counterexample :
    pfxFormatUint siPfx 1001 0 true true unitBitChars unitBitChars = "1 kilobits".toList := by
  decide

/-- C4, amended: in full-name mode the formatted string ends in the
plural 's' exactly when the underlying value v is neither 1 nor exactly
equal to the selected prefix threshold — i.e. pluralization is decided on
the exact value, not on the displayed (rounded) quantity — for every
value, every precision, both prefix tables and both count unit words. -/
theorem c4_plural_tracks_exact_value (v : Nat) (prec : ℤ) :
    ((pfxFormatUint siPfx v prec true true unitBitChars unitBitChars).getLast? = some 's' ↔
      ¬(v = 1 ∨ (siPfx.thrAt 0 ≤ v ∧ v = siPfx.thrAt (pickTier siPfx v)))) ∧
    ((pfxFormatUint siPfx v prec true true unitByteAbbrChars unitByteFullChars).getLast? = some 's' ↔
      ¬(v = 1 ∨ (siPfx.thrAt 0 ≤ v ∧ v = siPfx.thrAt (pickTier siPfx v)))) ∧
    ((pfxFormatUint binPfx v prec true true unitBitChars unitBitChars).getLast? = some 's' ↔
      ¬(v = 1 ∨ (binPfx.thrAt 0 ≤ v ∧ v = binPfx.thrAt (pickTier binPfx v)))) ∧
    ((pfxFormatUint binPfx v prec true true unitByteAbbrChars unitByteFullChars).getLast? = some 's' ↔
      ¬(v = 1 ∨ (binPfx.thrAt 0 ≤ v ∧ v = binPfx.thrAt (pickTier binPfx v)))) :=
  ⟨plural_iff_aux siPfx v prec _ _ 't' (by decide) (by decide) (by decide),
   plural_iff_aux siPfx v prec _ _ 'e' (by decide) (by decide) (by decide),
   plural_iff_aux binPfx v prec _ _ 't' (by decide) (by decide) (by decide),
   plural_iff_aux binPfx v prec _ _ 'e' (by decide) (by decide) (by decide)⟩

/-- C5: `ByteCount.BitCount()` succeeds with exactly 8·v for every value
whose top 3 bits are clear (v ≤ 0x1FFFFFFFFFFFFFFF, so dividing the
result by 8 recovers v), and returns ErrOutOfRange for every larger
uint64 value. -/
theorem c5_byte_to_bit_conversion (v : Nat) (hv : v < 2 ^ 64) :
    (v ≤ 0x1FFFFFFFFFFFFFFF → byteBitCount v = .ok (8 * v) ∧ (8 * v) / 8 = v) ∧
    (0x1FFFFFFFFFFFFFFF < v → byteBitCount v = .error .outOfRange) := by
  have hmask := land_mask761_eq_zero_iff v hv
  have hp61 : (2 : Nat) ^ 61 = 2305843009213693952 := by norm_num
  constructor
  · intro h
    have h61 : v < 2 ^ 61 := by omega
    refine ⟨?_, by omega⟩
    unfold byteBitCount
    rw [if_neg (fun hne => hne (hmask.mpr h61))]
    rw [Nat.shiftLeft_eq, Nat.mod_eq_of_lt (by
      have hp64 : (2 : Nat) ^ 64 = 18446744073709551616 := by norm_num
      have : (2 : Nat) ^ 3 = 8 := by norm_num
      omega)]
    rw [show (2 : Nat) ^ 3 = 8 from by norm_num, Nat.mul_comm]
  · intro h
    unfold byteBitCount
    rw [if_pos (fun h0 => absurd (hmask.mp h0) (by omega))]

/-- Witness for `c5_byte_to_bit_conversion` at v = 5 (in range) and
v = 2^61 (out of range). -/
theorem c5_byte_to_bit_conversion_witness :
    (byteBitCount 5 = .ok (8 * 5) ∧ (8 * 5) / 8 = 5) ∧
    byteBitCount (2 ^ 61) = .error .outOfRange :=
  ⟨(c5_byte_to_bit_conversion 5 (by norm_num)).1 (by norm_num),
   (c5_byte_to_bit_conversion (2 ^ 61) (by norm_num)).2 (by norm_num)⟩

/-- C6: the claim is right and the code has a boundary bug.  For the
count 2^63 at rate 10^9 bit/s the mathematical duration is exactly 2^63
nanoseconds, which exceeds MaxInt64 = 2^63-1, so the claim requires
ErrOutOfRange; but the code's upper range check compares against
float64(math.MaxInt64), which rounds UP to 2^63, so ns = 2^63 passes the
check and the function returns nil error with the implementation-defined
(wrapped, negative on amd64) converted duration. -/
theorem c6_range_check_boundary_bug :
    bitTimeNS (2 ^ 63) (.finite (qNat 1000000000)) = .finite (qNat (2 ^ 63)) ∧
    maxInt64F = .finite (qInt (2 ^ 63)) ∧
    bitCalcTime (2 ^ 63) (.finite (qNat 1000000000)) = .ok (-(2 ^ 63)) ∧
    (9223372036854775807 : Nat) < 2 ^ 63 :=
  ⟨by decide, by decide, by decide, by decide⟩

/-- C7: CalcBitRate is total (its codomain is a plain float64, no error
value exists), and on a zero duration it returns rate 0 for a zero count
and +Infinity for a positive count, for both BitCount and ByteCount. -/
theorem c7_calc_bitrate_zero_duration (bc : Nat) (d : Int) :
    (d = 0 → bc = 0 → bitCalcBitRate bc d = .finite 0 ∧ byteCalcBitRate bc d = .finite 0) ∧
    (d = 0 → 0 < bc → bitCalcBitRate bc d = .inf false ∧ byteCalcBitRate bc d = .inf false) := by
  constructor
  · rintro rfl rfl
    exact ⟨rfl, rfl⟩
  · rintro rfl hbc
    have h : bc ≠ 0 := Nat.pos_iff_ne_zero.mp hbc
    refine ⟨?_, ?_⟩
    · unfold bitCalcBitRate
      rw [if_pos rfl, if_neg h]
    · unfold byteCalcBitRate
      rw [if_pos rfl, if_neg h]

/-- Witness for `c7_calc_bitrate_zero_duration` at (0,0) and (5,0). -/
theorem c7_calc_bitrate_zero_duration_witness :
    (bitCalcBitRate 0 0 = .finite 0 ∧ byteCalcBitRate 0 0 = .finite 0) ∧
    (bitCalcBitRate 5 0 = .inf false ∧ byteCalcBitRate 5 0 = .inf false) :=
  ⟨(c7_calc_bitrate_zero_duration 0 0).1 rfl rfl,
   (c7_calc_bitrate_zero_duration 5 0).2 rfl (by norm_num)⟩

/-- C8: any accepted tokenization whose numeric literal carries a decimal
point and whose unit resolves to the base unit (bit / byte) makes the
parser return the non-integer-count error: no truncated or rounded value
is stored. -/
theorem c8_fractional_base_unit_rejected (bin : Bool) (cs : List Char)
    (nl : NumLit) (u : List Char) (fp : List Char)
    (he : extractTokens cs = .ok (nl, u)) (hf : nl.fracPart = some fp) :
    (matchAlt u bitBaseAlts = true → scanBitCount bin cs = .error .nonIntegerCount) ∧
    (matchAlt u byteBaseAlts = true → scanByteCount bin cs = .error .nonIntegerCount) := by
  have hint : nl.isInt = false := by
    unfold NumLit.isInt
    rw [hf]
    simp
  constructor <;> intro hm
  · unfold scanBitCount
    rw [he]
    show scanWithTable bitUnits bitBaseAlts bin nl u = _
    unfold scanWithTable
    rw [hm, hint]
    rfl
  · unfold scanByteCount
    rw [he]
    show scanWithTable byteUnits byteBaseAlts bin nl u = _
    unfold scanWithTable
    rw [hm, hint]
    rfl

/-- Witness for `c8_fractional_base_unit_rejected` on "1.5 bit". -/
theorem c8_fractional_base_unit_rejected_witness :
    scanBitCount false "1.5 bit".toList = .error .nonIntegerCount :=
  (c8_fractional_base_unit_rejected false "1.5 bit".toList ⟨['1'], some ['5']⟩
    "bit".toList ['5'] (by decide) rfl).1 (by decide)

/-- C9, counterexample: for "99.9 Ebit" the float64 product rounds to
exactly 99.9·10^18 ≥ 2^64, so no uint64 can equal it; the parser still
succeeds, storing the implementation-specific out-of-range conversion
(2^63 in this model, matching amd64) instead of the rounded product
demanded by the claim. -/
theorem c9_float_overflow_counterexample :
    scanBitCount false "99.9 Ebit".toList = .ok 9223372036854775808 ∧
    fround (fmul (roundFloat (litRat ⟨['9', '9'], some ['9']⟩)) (floatOfNat 1000000000000000000)) =
      .finite (qNat 99900000000000000000) ∧
    (2 : Nat) ^ 64 ≤ 99900000000000000000 ∧
    (9223372036854775808 : Nat) ≠ 99900000000000000000 :=
  ⟨by decide, by decide, by decide, by decide⟩

/-- C9, amended: for floating literals with a non-base tier, the stored
count equals the float64 product rounded half-away-from-zero, provided
that rounded product is representable in the unsigned 64-bit domain
(otherwise the uint64 conversion of the out-of-range float is
implementation-specific). -/
theorem c9_float_product_rounded_to_nearest :
    (∀ (bin : Bool) (nl : NumLit) (u : List Char) (fs fb : Nat) (f : GoFloat) (q : ℚ),
        matchAlt u bitBaseAlts = false →
        nl.isInt = false →
        goParseFloat nl = .ok f →
        lookupUnit bitUnits u = some (fs, fb) →
        fmul f (floatOfNat (if bin then fb else fs)) = .finite q →
        0 ≤ roundAwayInt q →
        roundAwayInt q < 2 ^ 64 →
        scanWithTable bitUnits bitBaseAlts bin nl u = .ok (roundAwayInt q).toNat) ∧
    (∀ (bin : Bool) (nl : NumLit) (u : List Char) (fs fb : Nat) (f : GoFloat) (q : ℚ),
        matchAlt u byteBaseAlts = false →
        nl.isInt = false →
        goParseFloat nl = .ok f →
        lookupUnit byteUnits u = some (fs, fb) →
        fmul f (floatOfNat (if bin then fb else fs)) = .finite q →
        0 ≤ roundAwayInt q →
        roundAwayInt q < 2 ^ 64 →
        scanWithTable byteUnits byteBaseAlts bin nl u = .ok (roundAwayInt q).toNat) := by
  constructor <;>
  · intro bin nl u fs fb f q hbase hint hpf hlook hprod hr0 hrlt
    have htr : truncInt (qInt (roundAwayInt q)) = roundAwayInt q := by
      unfold truncInt qInt
      rw [Rat.mkRat_one, Rat.num_intCast, Rat.den_intCast]
      exact Int.tdiv_one _
    unfold scanWithTable
    rw [hbase, hint, hpf, hlook]
    show Except.ok (goU64ofFloat (fround (fmul f (floatOfNat (if bin then fb else fs))))) = _
    rw [hprod, fround_finite, goU64ofFloat_finite, htr, if_pos ⟨hr0, hrlt⟩]

/-- Witness for `c9_float_product_rounded_to_nearest`: "1.5kbit" stores
round(1.5 × 1000) = 1500. -/
theorem c9_float_product_rounded_to_nearest_witness :
    scanWithTable bitUnits bitBaseAlts false ⟨['1'], some ['5']⟩ "kbit".toList =
      .ok (roundAwayInt (mkRat 1500 1)).toNat :=
  c9_float_product_rounded_to_nearest.1 false ⟨['1'], some ['5']⟩ "kbit".toList
    1000 1024 (.finite (mkRat 3 2)) (mkRat 1500 1)
    (by decide) (by decide) (by decide) (by decide) (by decide) (by decide) (by decide)

/-- C10: with a NaN rate, CalcTime returns nil error for every count (bit
or byte): NaN compares unequal to 0, so the division-by-zero branch is
skipped, the NaN nanosecond value fails both range comparisons, and the
caller receives the NaN-converted duration with no error. -/
theorem c10_nan_rate_returns_no_error (bc : Nat) :
    bitCalcTime bc .nan = .ok (goI64ofFloat .nan) ∧
    byteCalcTime bc .nan = .ok (goI64ofFloat .nan) := by
  have hb : bitTimeNS bc .nan = .nan := fdiv_nan _
  have hy : byteTimeNS bc .nan = .nan := fdiv_nan _
  constructor
  · unfold bitCalcTime
    rw [hb, feq_nan_left, flt_nan_left, flt_nan_right]
    rfl
  · unfold byteCalcTime
    rw [hy, feq_nan_left, flt_nan_left, flt_nan_right]
    rfl

end Infounit
